import Mathlib

/-!
Verification of the core of the OTA update server (`src/ota-server/server.js`).

The development shallowly embeds the parts of the server the specification
talks about:

* the in-memory fleet registry (`agentStatus`, `recordAgentStatus`,
  `cleanupInactiveAgents`, the `/agents` listing),
* the client identity resolver (`getClientIP` and the `x-agent-id` fallback),
* the manifest builder (`generateConfig`), instrumented with an explicit
  trace of filesystem accesses so that ordering claims are statable,
* the game-record query filter (`queryGameRecords`).

JavaScript `Map`s are modelled as insertion-ordered association lists with the
`Map` operations (`has` / `get` / `set` / `delete`-via-filter).  JavaScript
string truthiness (`undefined`, `null` and `""` are falsy) is modelled by
`truthy` / `jsOr` over `Option String`.  Timestamps are integers (epoch
milliseconds for the registry, epoch seconds for the record store); a stored
`lastSeen` value that does not parse as a date (`new Date(x).getTime()` is
`NaN`) is modelled by the `TimeVal.malformed` constructor, and the JS fact
that every comparison against `NaN` is `false` is reflected in `shouldEvict`.
-/

/-! ## Association-list model of a JavaScript `Map` with string keys -/

/-- `m.keys` of a JS `Map`: the keys in insertion order. -/
def mapKeys {α : Type} (m : List (String × α)) : List String :=
  m.map (fun p => p.1)

/-- `m.has k` of a JS `Map`. -/
def mapHas {α : Type} (m : List (String × α)) (k : String) : Bool :=
  m.any (fun p => p.1 == k)

/-- `m.get k` of a JS `Map` (`none` when the key is absent). -/
def mapGet {α : Type} (m : List (String × α)) (k : String) : Option α :=
  (m.find? (fun p => p.1 == k)).map (fun p => p.2)

/-- `m.set k v` of a JS `Map`: update in place when the key exists (keeping
insertion order), otherwise append a new entry. -/
def mapSet {α : Type} (m : List (String × α)) (k : String) (v : α) : List (String × α) :=
  if mapHas m k then m.map (fun p => if p.1 == k then (k, v) else p)
  else m ++ [(k, v)]

/-- Number of entries stored under a key.  A real JS `Map` always has at most
one; the fleet-registry claims assert exactly that, so the model counts. -/
def countKey {α : Type} (m : List (String × α)) (k : String) : Nat :=
  (mapKeys m).count k

/-! ## Fleet registry data model (`agentStatus` in `server.js`) -/

/-- A stored timestamp.  `recordAgentStatus` always writes
`new Date().toISOString()`, modelled as `TimeVal.at ms`; `TimeVal.malformed`
models an anomalous stored value for which `new Date(v).getTime()` is `NaN`. -/
inductive TimeVal : Type where
  | at (ms : Int)
  | malformed
deriving DecidableEq

/-- `new Date(v).getTime()`: the epoch milliseconds, or `none` for `NaN`. -/
def timeValMs : TimeVal → Option Int
  | TimeVal.at ms => some ms
  | TimeVal.malformed => none

/-- One agent record, as created and mutated by `recordAgentStatus`
(`server.js` lines 170-196). -/
structure AgentState : Type where
  id : String
  localVersion : String
  ip : String
  lastSeen : TimeVal
  requestCount : Nat
  currentVersion : Option String
  lastAction : String
  userAgent : String
deriving DecidableEq

/-- The per-application agent map (`agentStatus.get(appName)`). -/
abbrev AgentMap := List (String × AgentState)

/-- The whole registry (`agentStatus`): application name to agent map. -/
abbrev Registry := List (String × AgentMap)

/-- The request metadata `recordAgentStatus` and `getClientIP` look at.
A header that was not sent is `none`; a header sent with an empty value is
`some ""` (JavaScript sees the empty string, which is falsy). -/
structure Request : Type where
  xForwardedFor : Option String
  xRealIP : Option String
  xAgentId : Option String
  xLocalVersion : Option String
  userAgent : Option String
  connectionRemoteAddress : Option String
  socketRemoteAddress : Option String
deriving DecidableEq

/-- JavaScript truthiness of a possibly-absent string: `undefined`, `null`
and `""` are falsy; every other string is truthy. -/
def truthy : Option String → Bool
  | none => false
  | some s => !(s == "")

/-- JavaScript `x || y` on a possibly-absent string `x` with default `y`. -/
def jsOr (x : Option String) (y : String) : String :=
  match x with
  | none => y
  | some s => if s == "" then y else s

/-- `getClientIP` (`server.js` lines 142-153): forwarded header's first
comma-separated entry trimmed, else the real-IP header, else
`req.connection?.remoteAddress || req.socket?.remoteAddress || 'unknown'`. -/
def getClientIP (req : Request) : String :=
  if truthy req.xForwardedFor then
    (((req.xForwardedFor.getD "").splitOn ",").headD "").trim
  else if truthy req.xRealIP then
    req.xRealIP.getD ""
  else
    jsOr req.connectionRemoteAddress (jsOr req.socketRemoteAddress "unknown")

/-- `const agentId = req.headers['x-agent-id'] || ip` (`server.js` line 160):
the registry key for the request. -/
def resolvedAgentId (req : Request) : String :=
  jsOr req.xAgentId (getClientIP req)

/-- The record created on first contact (`server.js` lines 170-179):
`requestCount = 0`, `currentVersion = null`. -/
def freshAgent (agentId localVersion ip : String) (now : Int)
    (action userAgent : String) : AgentState :=
  { id := agentId
    localVersion := localVersion
    ip := ip
    lastSeen := TimeVal.at now
    requestCount := 0
    currentVersion := none
    lastAction := action
    userAgent := userAgent }

/-- The unconditional and conditional mutations applied to the (found or
freshly created) record (`server.js` lines 182-196): bump `lastSeen`,
`requestCount`, `lastAction`; set `currentVersion` when a version was served;
set `localVersion` when reported; overwrite `ip` only when the agent supplied
an explicit `x-agent-id`. -/
def applyUpdate (req : Request) (action : String) (version : Option String)
    (now : Int) (a : AgentState) : AgentState :=
  { a with
    lastSeen := TimeVal.at now
    requestCount := a.requestCount + 1
    lastAction := action
    currentVersion := if truthy version then version else a.currentVersion
    localVersion :=
      if jsOr req.xLocalVersion "" == "" then a.localVersion
      else jsOr req.xLocalVersion ""
    ip := if truthy req.xAgentId then getClientIP req else a.ip }

/-- `recordAgentStatus(appName, req, action, version)` (`server.js` lines
156-197).  `now` is the clock reading (`new Date()` in the source).  The
source's `if (!has) set(appName, new Map())` followed by `get` and in-place
mutation is modelled by reading the app map (empty when absent) and writing
the updated map back with `set`. -/
def recordAgentStatus (appName : String) (req : Request) (action : String)
    (version : Option String) (now : Int) (st : Registry) : Registry :=
  let ip := getClientIP req
  let userAgent := jsOr req.userAgent "unknown"
  let agentId := resolvedAgentId req
  let localVersion := jsOr req.xLocalVersion ""
  let st1 := if mapHas st appName then st else mapSet st appName []
  let appAgents := (mapGet st1 appName).getD []
  let fresh := freshAgent agentId localVersion ip now action userAgent
  let appAgents1 :=
    if mapHas appAgents agentId then appAgents else mapSet appAgents agentId fresh
  let agent := (mapGet appAgents1 agentId).getD fresh
  mapSet st1 appName (mapSet appAgents1 agentId (applyUpdate req action version now agent))

/-- The eviction test of `cleanupInactiveAgents` (`server.js` lines 205-206):
`new Date(agent.lastSeen).getTime() < cutoff`.  A malformed `lastSeen` gives
`NaN`, and `NaN < cutoff` is `false` in JavaScript, so such a record is never
evicted. -/
def shouldEvict (cutoff : Int) (a : AgentState) : Bool :=
  match timeValMs a.lastSeen with
  | some t => decide (t < cutoff)
  | none => false

/-- The eviction sweep body (`server.js` lines 200-215) for a given cutoff
(`oneHourAgo` in the source): delete every record whose `lastSeen` is strictly
older than the cutoff, then delete every application entry left empty. -/
def evictStale (cutoff : Int) (st : Registry) : Registry :=
  (st.map (fun p => (p.1, p.2.filter (fun q => !(shouldEvict cutoff q.2))))).filter
    (fun p => !(p.2.isEmpty))

/-- The fixed inactivity window: `60 * 60 * 1000` ms (`server.js` line 201). -/
def oneHourMs : Int := 60 * 60 * 1000

/-- `cleanupInactiveAgents()` (`server.js` lines 200-215) at clock reading
`now` (`Date.now()` in the source). -/
def cleanupInactiveAgents (now : Int) (st : Registry) : Registry :=
  evictStale (now - oneHourMs) st

/-- The `/ota/<app>/agents` listing (`server.js` lines 1142-1143):
`appAgents ? Array.from(appAgents.values()) : []`. -/
def listAgents (appName : String) (st : Registry) : List AgentState :=
  ((mapGet st appName).getD []).map (fun p => p.2)

/-- Lookup of the record stored for an (application, agent identity) pair. -/
def lookupAgent (st : Registry) (appName agentId : String) : Option AgentState :=
  mapGet ((mapGet st appName).getD []) agentId

/-- Well-formedness a real pair of nested JS `Map`s always has: no duplicate
application keys and no duplicate agent keys. -/
def RegistryWF (st : Registry) : Prop :=
  (mapKeys st).Nodup ∧ ∀ p ∈ st, (mapKeys p.2).Nodup

instance : DecidablePred RegistryWF := fun st => by
  unfold RegistryWF
  infer_instance

/-- One `recordAgentStatus` invocation: its request metadata, action tag,
optionally served version, and the clock reading at the time of the call. -/
structure FleetCall : Type where
  req : Request
  action : String
  version : Option String
  now : Int
deriving DecidableEq

/-- Run a sequence of `recordAgentStatus` calls against one application. -/
def runCalls (appName : String) (st : Registry) : List FleetCall → Registry
  | [] => st
  | c :: cs => runCalls appName (recordAgentStatus appName c.req c.action c.version c.now st) cs

/-- Registry states reachable from the empty registry by `recordAgentStatus`
calls and eviction sweeps. -/
inductive ReachableFleet : Registry → Prop where
  | empty : ReachableFleet []
  | record (appName : String) (req : Request) (action : String)
      (version : Option String) (now : Int) (st : Registry) :
      ReachableFleet st →
      ReachableFleet (recordAgentStatus appName req action version now st)
  | evict (cutoff : Int) (st : Registry) :
      ReachableFleet st → ReachableFleet (evictStale cutoff st)

/-! ## Manifest builder (`generateConfig`, `server.js` lines 346-413) -/

/-- One filesystem access performed while building a manifest.  `existsCheck`
is an `fs.existsSync` probe; `readForHash` is the full read performed by
`calculateSHA256`. -/
inductive FsAccess : Type where
  | existsCheck (p : String)
  | readForHash (p : String)
deriving DecidableEq

/-- The filesystem snapshot the builder runs against: which paths exist and
the (deterministic) hex digest of each path's content. -/
structure Fsys : Type where
  existsSync : String → Bool
  sha256 : String → String

/-- One element of the `files` argument of `generateConfig`.  `path := ""`
models an absent/falsy `file.path`; optional fields model absent object
properties (JavaScript `undefined`). -/
structure FileSpec : Type where
  path : String
  name : Option String
  target : String
  version : Option String
  restart : Bool
deriving DecidableEq

/-- One entry of the built `fileList` (`server.js` lines 370-377). -/
structure ConfigEntry : Type where
  name : String
  url : String
  sha256 : String
  target : String
  version : String
  restart : Bool
deriving DecidableEq

/-- The successful result of `generateConfig`: the rendered YAML text and the
in-memory config value. -/
structure GenOut : Type where
  yaml : String
  version : String
  files : List ConfigEntry
  restartCmd : String
deriving DecidableEq

/-- The `options` argument of `generateConfig`.  `baseUrl` is resolved with
`||` (truthiness); `restartCmd` with an explicit `!== undefined` test. -/
structure GenOptions : Type where
  baseUrl : Option String
  restartCmd : Option String
deriving DecidableEq

/-- Helper for `basename`: scan the characters, restarting the accumulator
after each separator. -/
def basenameAux : List Char → List Char → List Char
  | [], acc => acc
  | c :: rest, acc =>
    if c = Char.ofNat 47 then basenameAux rest []
    else basenameAux rest (acc ++ [c])

/-- `path.basename` for the slash-separated paths the server passes around:
the last `/`-separated component (code point 47 is the separator). -/
def basename (p : String) : String :=
  String.mk (basenameAux p.data [])

/-- A single quote character, written via its code point. -/
def singleQuote : String := String.singleton (Char.ofNat 39)

/-- The unconditional four lines rendered for a file entry
(`server.js` lines 392-396): `name`, `url`, `sha256`, `target`. -/
def entryBase (e : ConfigEntry) : String :=
  "  - name: \"" ++ e.name ++ "\"\n    url: \"" ++ e.url ++ "\"\n    sha256: \""
    ++ e.sha256 ++ "\"\n    target: \"" ++ e.target ++ "\"\n"

/-- The rendering of one `fileList` entry (`server.js` lines 391-405): the
file-level `version` line is emitted when `file.version && file.version !==
version`, the `restart: true` line when `file.restart`. -/
def renderFileEntry (version : String) (e : ConfigEntry) : String :=
  entryBase e
    ++ (if !(e.version == "") && !(e.version == version) then
          "    version: \"" ++ e.version ++ "\"\n"
        else "")
    ++ (if e.restart then "    restart: true\n" else "")

/-- The per-file loop of `generateConfig` (`server.js` lines 363-378): fail
with `Binary file not found` at the first falsy or non-existent `file.path`
(the `||` short-circuits, so no `existsSync` probe happens for a falsy path);
otherwise hash the file and build its entry.  The second component is the
trace of filesystem accesses performed, in order. -/
def buildFileList (fsys : Fsys) (baseUrl appName version : String) :
    List FileSpec → Except String (List ConfigEntry) × List FsAccess
  | [] => (Except.ok [], [])
  | f :: rest =>
    if f.path == "" then
      (Except.error ("Binary file not found: " ++ "unknown"), [])
    else if !(fsys.existsSync f.path) then
      (Except.error ("Binary file not found: " ++ f.path), [FsAccess.existsCheck f.path])
    else
      let sha := fsys.sha256 f.path
      let fileName := basename f.path
      let entry : ConfigEntry :=
        { name := jsOr f.name fileName
          url := baseUrl ++ "/ota/" ++ appName ++ "/files/" ++ fileName
          sha256 := sha
          target := f.target
          version := jsOr f.version version
          restart := f.restart }
      let next := buildFileList fsys baseUrl appName version rest
      (next.1.map (fun l => entry :: l),
        FsAccess.existsCheck f.path :: FsAccess.readForHash f.path :: next.2)

/-- `generateConfig(files, version, appName, options)` (`server.js` lines
346-413).  `envBaseUrl` and `envRestartCmd` are the module constants
`BASE_URL` and `RESTART_CMD`.  The `Array.isArray` check is type-level in the
model.  The second component is the trace of filesystem accesses. -/
def generateConfig (fsys : Fsys) (envBaseUrl envRestartCmd : String)
    (files : List FileSpec) (version appName : String) (opts : GenOptions) :
    Except String GenOut × List FsAccess :=
  let baseUrl := jsOr opts.baseUrl envBaseUrl
  let restartCmd := match opts.restartCmd with
    | some s => s
    | none => envRestartCmd
  if files.isEmpty then
    (Except.error "Files array cannot be empty", [])
  else if appName == "" then
    (Except.error "App name is required", [])
  else
    match buildFileList fsys baseUrl appName version files with
    | (Except.error e, tr) => (Except.error e, tr)
    | (Except.ok fileList, tr) =>
      let yaml :=
        "version: \"" ++ version ++ "\"\nfiles:\n"
          ++ String.join (fileList.map (renderFileEntry version))
          ++ (if !(restartCmd == "") then
                "restart_cmd: " ++ singleQuote ++ restartCmd ++ singleQuote ++ "\n"
              else "")
      (Except.ok { yaml := yaml, version := version, files := fileList,
                   restartCmd := restartCmd }, tr)

/-! ## Game-record query filter (`queryGameRecords`, `server.js` lines 78-121) -/

/-- One stored row of `game_records`; `timestamp` is the value of
`CAST(timestamp AS INTEGER)` (epoch seconds). -/
structure GameRecord : Type where
  id : Nat
  timestamp : Int
  type : Option String
  duration : Option Int
deriving DecidableEq

/-- The date clause (`server.js` lines 83-95): when a date filter is supplied
(and truthy), keep rows with `start <= t < start + 86400` where `start` is
the epoch-second reading of the date's local midnight
(`new Date(date + "T00:00:00").getTime() / 1000`), supplied here as the
abstract `startOfDay` function. -/
def matchesDate (startOfDay : String → Int) (date : Option String)
    (r : GameRecord) : Bool :=
  match date with
  | none => true
  | some d =>
    if d == "" then true
    else decide (startOfDay d ≤ r.timestamp) && decide (r.timestamp < startOfDay d + 86400)

/-- The type clause (`server.js` lines 97-100): exact SQL equality; a row
with `NULL` type never matches an equality filter. -/
def matchesType (type : Option String) (r : GameRecord) : Bool :=
  match type with
  | none => true
  | some t => if t == "" then true else r.type == some t

/-- The duration clause (`server.js` lines 102-105): exact equality against
the parsed integer; absent, null or empty filter means no constraint. -/
def matchesDuration (dur : Option Int) (r : GameRecord) : Bool :=
  match dur with
  | none => true
  | some dv => r.duration == some dv

/-- Insert into a list kept sorted by `timestamp` descending. -/
def insertDesc (x : GameRecord) : List GameRecord → List GameRecord
  | [] => [x]
  | y :: ys => if y.timestamp ≤ x.timestamp then x :: y :: ys else y :: insertDesc x ys

/-- `ORDER BY CAST(timestamp AS INTEGER) DESC` (`server.js` line 107). -/
def sortByTimestampDesc (l : List GameRecord) : List GameRecord :=
  l.foldr insertDesc []

/-- `queryGameRecords(date, type, duration)` (`server.js` lines 78-121) as a
filter over the stored rows: the conjunction of the three clauses, ordered by
timestamp descending. -/
def queryGameRecords (startOfDay : String → Int) (date type : Option String)
    (dur : Option Int) (db : List GameRecord) : List GameRecord :=
  sortByTimestampDesc (db.filter (fun r =>
    matchesDate startOfDay date r && matchesType type r && matchesDuration dur r))

/-! ## The claim's wording of the identity resolver (for claim C7)

The two definitions below follow the claim's words, not the source: the claim
keys each fallback step on the header being *present*.  They are compared
against `getClientIP` / `resolvedAgentId`, which are translated from the
source and key each step on JavaScript truthiness. -/

/-- Claim C7's address resolution, read literally: a *present*
forwarded-address header wins, else a *present* real-address header, else the
transport peer address, else `"unknown"`. -/
def specResolvedAddress (req : Request) : String :=
  match req.xForwardedFor with
  | some s => ((s.splitOn ",").headD "").trim
  | none =>
    match req.xRealIP with
    | some s => s
    | none =>
      match req.connectionRemoteAddress with
      | some s => s
      | none =>
        match req.socketRemoteAddress with
        | some s => s
        | none => "unknown"

/-- Claim C7's identity resolution, read literally: a *present* client
identity header, else the resolved address. -/
def specResolvedIdentity (req : Request) : String :=
  match req.xAgentId with
  | some s => s
  | none => specResolvedAddress req

/-! ## Concrete fixtures used by witnesses and counterexamples -/

/-- A request with an explicit `x-agent-id`. -/
def reqExplicit : Request :=
  { xForwardedFor := none, xRealIP := none, xAgentId := some "A",
    xLocalVersion := some "1.2.3", userAgent := some "ota-agent/1.0",
    connectionRemoteAddress := some "198.51.100.2", socketRemoteAddress := none }

/-- A request without `x-agent-id`: the identity falls back to the address. -/
def reqFallback : Request :=
  { xForwardedFor := none, xRealIP := none, xAgentId := none,
    xLocalVersion := none, userAgent := none,
    connectionRemoteAddress := some "198.51.100.2", socketRemoteAddress := none }

/-- A request whose client-identity header is present but empty. -/
def reqEmptyAgent : Request :=
  { xForwardedFor := none, xRealIP := none, xAgentId := some "",
    xLocalVersion := none, userAgent := none,
    connectionRemoteAddress := some "10.0.0.7", socketRemoteAddress := none }

/-- A request whose forwarded-address header is present but empty. -/
def reqEmptyFwd : Request :=
  { xForwardedFor := some "", xRealIP := some "10.0.0.7", xAgentId := none,
    xLocalVersion := none, userAgent := none,
    connectionRemoteAddress := none, socketRemoteAddress := none }

/-- A request with a two-entry forwarded-address list. -/
def reqFwdList : Request :=
  { xForwardedFor := some " 10.1.2.3 ,172.16.0.9", xRealIP := none,
    xAgentId := none, xLocalVersion := none, userAgent := none,
    connectionRemoteAddress := none, socketRemoteAddress := none }

/-- A pre-existing record stored under identity `"A"`. -/
def agentSeed : AgentState :=
  { id := "A", localVersion := "", ip := "203.0.113.9",
    lastSeen := TimeVal.at 1000, requestCount := 3,
    currentVersion := some "1.0", lastAction := "config_check",
    userAgent := "ua" }

/-- A registry holding `agentSeed` for application `"app"`. -/
def regSeed : Registry := [("app", [("A", agentSeed)])]

/-- A record last seen at time 0 (stale for any positive cutoff). -/
def agentStale : AgentState :=
  { id := "S", localVersion := "", ip := "ip1", lastSeen := TimeVal.at 0,
    requestCount := 1, currentVersion := none, lastAction := "config_check",
    userAgent := "ua" }

/-- A record last seen exactly at the witness cutoff of 50000 ms. -/
def agentFresh : AgentState :=
  { id := "F", localVersion := "", ip := "ip2", lastSeen := TimeVal.at 50000,
    requestCount := 2, currentVersion := none, lastAction := "file_download",
    userAgent := "ua" }

/-- A record whose stored `lastSeen` does not parse as a date. -/
def agentBad : AgentState :=
  { id := "M", localVersion := "", ip := "ip3", lastSeen := TimeVal.malformed,
    requestCount := 7, currentVersion := none, lastAction := "config_check",
    userAgent := "ua" }

/-- The only record of application `"old"`, stale at any positive cutoff. -/
def agentOld : AgentState :=
  { id := "O", localVersion := "", ip := "ip4", lastSeen := TimeVal.at 0,
    requestCount := 9, currentVersion := none, lastAction := "config_check",
    userAgent := "ua" }

/-- A registry mixing stale, boundary, and malformed records. -/
def regMix : Registry :=
  [("app", [("S", agentStale), ("F", agentFresh), ("M", agentBad)]),
   ("old", [("O", agentOld)])]

/-- First call of the witness call sequence (clock 5). -/
def callA : FleetCall :=
  { req := reqExplicit, action := "config_check", version := some "2.0", now := 5 }

/-- Second call of the witness call sequence (clock 9). -/
def callB : FleetCall :=
  { req := reqExplicit, action := "file_download", version := none, now := 9 }

/-- A filesystem snapshot on which only `"good.bin"` exists. -/
def fsysW : Fsys :=
  { existsSync := fun p => p == "good.bin", sha256 := fun _ => "cafebabe" }

/-- A file whose source path exists on `fsysW`. -/
def fileGood : FileSpec :=
  { path := "good.bin", name := none, target := "/opt/app", version := none,
    restart := false }

/-- A file whose source path does not exist on `fsysW`. -/
def fileMissing : FileSpec :=
  { path := "missing.bin", name := none, target := "/opt/app2",
    version := some "9.9", restart := true }

/-- The manifest entry `generateConfig` builds for `fileGood`. -/
def entryGood : ConfigEntry :=
  { name := "good.bin", url := "http://h/ota/app/files/good.bin",
    sha256 := "cafebabe", target := "/opt/app", version := "1.0",
    restart := false }

/-- A local-midnight reading: every date string maps to epoch second 172800. -/
def sodW : String → Int := fun _ => 172800

/-- A record timestamped exactly at the witness local midnight. -/
def recMid : GameRecord :=
  { id := 1, timestamp := 172800, type := some "puzzle", duration := some 30 }

/-- A record timestamped exactly at the following local midnight. -/
def recNext : GameRecord :=
  { id := 2, timestamp := 259200, type := some "puzzle", duration := some 45 }

/-- The stored rows used by the query witnesses. -/
def dbW : List GameRecord := [recMid, recNext]

/-- Empty options object for `generateConfig`. -/
def optsNone : GenOptions := { baseUrl := none, restartCmd := none }

/-- The manifest value built for `[fileGood]` at version `"1.0"`. -/
def outGood : GenOut :=
  { yaml := "version: \"1.0\"\nfiles:\n  - name: \"good.bin\"\n    url: \"http://h/ota/app/files/good.bin\"\n    sha256: \"cafebabe\"\n    target: \"/opt/app\"\n",
    version := "1.0", files := [entryGood], restartCmd := "" }

/-- The record created by one `recordAgentStatus` call with `reqFallback`. -/
def agentW : AgentState :=
  { id := "198.51.100.2", localVersion := "", ip := "198.51.100.2",
    lastSeen := TimeVal.at 5, requestCount := 1, currentVersion := none,
    lastAction := "config_check", userAgent := "unknown" }

/-! ## Lemmas about the `Map` model -/

theorem mapGet_cons {α : Type} (k0 : String) (v0 : α) (m : List (String × α)) (k : String) :
    mapGet ((k0, v0) :: m) k = if k0 == k then some v0 else mapGet m k := by
  cases h : (k0 == k) <;> simp [mapGet, List.find?_cons, h]

theorem mapHas_cons {α : Type} (k0 : String) (v0 : α) (m : List (String × α)) (k : String) :
    mapHas ((k0, v0) :: m) k = ((k0 == k) || mapHas m k) := by
  simp [mapHas]

theorem mapGet_replace {α : Type} (m : List (String × α)) (k : String) (v : α) :
    mapGet (m.map (fun p => if p.1 == k then (k, v) else p)) k
      = if mapHas m k then some v else none := by
  induction m with
  | nil => simp [mapGet, mapHas]
  | cons p m ih =>
    obtain ⟨k0, v0⟩ := p
    simp only [List.map_cons]
    cases hb : (k0 == k) with
    | true =>
      rw [if_pos rfl, mapGet_cons, mapHas_cons, hb]
      simp
    | false =>
      rw [if_neg (by simp), mapGet_cons, if_neg (by simp [hb]), ih,
        mapHas_cons, hb]
      simp

theorem mapGet_append_single {α : Type} (m : List (String × α)) (k : String) (v : α)
    (h : mapHas m k = false) : mapGet (m ++ [(k, v)]) k = some v := by
  induction m with
  | nil => simp [mapGet_cons]
  | cons p m ih =>
    obtain ⟨k0, v0⟩ := p
    rw [mapHas_cons] at h
    simp only [Bool.or_eq_false_iff] at h
    rw [List.cons_append, mapGet_cons, h.1]
    exact ih h.2

theorem mapGet_mapSet_self {α : Type} (m : List (String × α)) (k : String) (v : α) :
    mapGet (mapSet m k v) k = some v := by
  unfold mapSet
  cases h : mapHas m k with
  | true => rw [if_pos rfl, mapGet_replace, if_pos h]
  | false =>
    rw [if_neg (by simp)]
    exact mapGet_append_single m k v h

theorem mapHas_eq_isSome {α : Type} (m : List (String × α)) (k : String) :
    mapHas m k = (mapGet m k).isSome := by
  induction m with
  | nil => simp [mapHas, mapGet]
  | cons p m ih =>
    obtain ⟨k0, v0⟩ := p
    cases h : (k0 == k) <;> simp [mapHas_cons, mapGet_cons, h, ih]

theorem mapGet_eq_none_of_not_mem {α : Type} (m : List (String × α)) (k : String)
    (h : k ∉ mapKeys m) : mapGet m k = none := by
  induction m with
  | nil => rfl
  | cons p m ih =>
    obtain ⟨k0, v0⟩ := p
    simp only [mapKeys, List.map_cons, List.mem_cons, not_or] at h
    have hb : (k0 == k) = false := beq_eq_false_iff_ne.mpr (Ne.symm h.1)
    rw [mapGet_cons, hb]
    simp only [Bool.false_eq_true, if_false]
    exact ih (fun hm => h.2 (by simpa [mapKeys] using hm))

theorem mem_of_mapGet_eq_some {α : Type} {m : List (String × α)} {k : String} {v : α}
    (h : mapGet m k = some v) : (k, v) ∈ m := by
  unfold mapGet at h
  obtain ⟨p, hp, hv⟩ := Option.map_eq_some'.mp h
  have hk : p.1 = k := by simpa using List.find?_some hp
  have hm := List.mem_of_find?_eq_some hp
  obtain ⟨p1, p2⟩ := p
  dsimp at hk hv
  subst hk; subst hv
  exact hm

theorem mapKeys_replace {α : Type} (m : List (String × α)) (k : String) (v : α) :
    mapKeys (m.map (fun p => if p.1 == k then (k, v) else p)) = mapKeys m := by
  induction m with
  | nil => rfl
  | cons p m ih =>
    obtain ⟨k0, v0⟩ := p
    simp only [mapKeys, List.map_cons] at ih ⊢
    rw [ih]
    cases hb : (k0 == k) with
    | true =>
      have e : k0 = k := by simpa using hb
      rw [if_pos rfl, e]
    | false => rw [if_neg (by simp)]

theorem countKey_mapSet_self {α : Type} (m : List (String × α)) (k : String) (v : α) :
    countKey (mapSet m k v) k
      = if mapHas m k then countKey m k else countKey m k + 1 := by
  unfold mapSet
  cases h : mapHas m k with
  | true =>
    rw [if_pos rfl, if_pos rfl]
    unfold countKey
    rw [mapKeys_replace]
  | false =>
    rw [if_neg (by simp), if_neg (by simp)]
    unfold countKey
    rw [show mapKeys (m ++ [(k, v)]) = mapKeys m ++ [k] by simp [mapKeys],
      List.count_append]
    simp

theorem countKey_mapSet_of_has {α : Type} (m : List (String × α)) (k : String) (v : α)
    (h : mapHas m k = true) (k' : String) :
    countKey (mapSet m k v) k' = countKey m k' := by
  unfold mapSet
  rw [if_pos h]
  unfold countKey
  rw [mapKeys_replace]

theorem countKey_zero_of_not_has {α : Type} (m : List (String × α)) (k : String)
    (h : mapHas m k = false) : countKey m k = 0 := by
  rw [countKey, List.count_eq_zero]
  intro hmem
  have ht : mapHas m k = true := by
    rw [mapHas, List.any_eq_true]
    obtain ⟨p, hp, he⟩ := List.mem_map.mp hmem
    exact ⟨p, hp, by simp [he]⟩
  simp [ht] at h

theorem mapHas_of_countKey_pos {α : Type} (m : List (String × α)) (k : String)
    (h : countKey m k ≠ 0) : mapHas m k = true := by
  cases hh : mapHas m k with
  | true => rfl
  | false => exact absurd (countKey_zero_of_not_has m k hh) h

theorem values_filter {α : Type} (m : List (String × α)) (q : α → Bool) :
    (m.filter (fun p => q p.2)).map (fun p => p.2)
      = (m.map (fun p => p.2)).filter q := by
  induction m with
  | nil => rfl
  | cons p m ih =>
    cases h : q p.2 <;> simp [List.filter_cons, h, ih]

theorem mem_keys_filter {α : Type} {m : List (String × α)} {f : String × α → Bool}
    {k : String} (h : k ∈ mapKeys (m.filter f)) : k ∈ mapKeys m := by
  obtain ⟨p, hp, he⟩ := List.mem_map.mp h
  exact List.mem_map.mpr ⟨p, List.mem_of_mem_filter hp, he⟩

theorem mapGet_filter_of_nodup {α : Type} (m : List (String × α)) (q : α → Bool)
    (k : String) (h : (mapKeys m).Nodup) :
    mapGet (m.filter (fun p => q p.2)) k
      = (mapGet m k).bind (fun v => if q v then some v else none) := by
  induction m with
  | nil => rfl
  | cons p m ih =>
    obtain ⟨k0, v0⟩ := p
    rw [show mapKeys ((k0, v0) :: m) = k0 :: mapKeys m from rfl, List.nodup_cons] at h
    obtain ⟨h1, h2⟩ := h
    cases hk : (k0 == k) with
    | true =>
      have e : k0 = k := by simpa using hk
      subst e
      cases hq : q v0 with
      | true => simp [List.filter_cons, hq, mapGet_cons, hk]
      | false =>
        have hnone : mapGet (m.filter (fun p => q p.2)) k0 = none :=
          mapGet_eq_none_of_not_mem _ _ (fun hmem => h1 (mem_keys_filter hmem))
        simp [List.filter_cons, hq, mapGet_cons, hk, hnone]
    | false =>
      cases hq : q v0 <;> simp [List.filter_cons, hq, mapGet_cons, hk, ih h2]

/-! ## Lemmas about the eviction sweep -/

theorem mem_keys_evictStale {c : Int} {st : Registry} {k : String}
    (h : k ∈ mapKeys (evictStale c st)) : k ∈ mapKeys st := by
  unfold evictStale at h
  have h2 := mem_keys_filter h
  obtain ⟨p, hp, he⟩ := List.mem_map.mp h2
  obtain ⟨p0, hp0, he0⟩ := List.mem_map.mp hp
  refine List.mem_map.mpr ⟨p0, hp0, ?_⟩
  rw [← he, ← he0]

theorem mapGet_evictStale (c : Int) (st : Registry) (h : (mapKeys st).Nodup)
    (app : String) :
    mapGet (evictStale c st) app
      = match mapGet st app with
        | none => none
        | some m =>
          if (m.filter (fun q => !(shouldEvict c q.2))).isEmpty then none
          else some (m.filter (fun q => !(shouldEvict c q.2))) := by
  induction st with
  | nil => rfl
  | cons p st ih =>
    obtain ⟨a0, m0⟩ := p
    rw [show mapKeys ((a0, m0) :: st) = a0 :: mapKeys st from rfl,
      List.nodup_cons] at h
    obtain ⟨h1, h2⟩ := h
    unfold evictStale at ih ⊢
    simp only [List.map_cons]
    cases hk : (a0 == app) with
    | true =>
      have e : a0 = app := by simpa using hk
      subst e
      cases he : (m0.filter (fun q => !(shouldEvict c q.2))).isEmpty with
      | true =>
        have hnone :
            mapGet ((st.map (fun p => (p.1, p.2.filter
              (fun q => !(shouldEvict c q.2))))).filter (fun p => !(p.2.isEmpty)))
              a0 = none := by
          apply mapGet_eq_none_of_not_mem
          intro hmem
          exact h1 (@mem_keys_evictStale c st a0 hmem)
        rw [List.filter_cons]
        simp only [he, Bool.not_true, Bool.false_eq_true, if_false]
        rw [hnone, mapGet_cons, hk]
        simp [he]
      | false =>
        rw [List.filter_cons]
        simp only [he, Bool.not_false, if_true]
        rw [mapGet_cons, hk]
        simp [mapGet_cons, hk, he]
    | false =>
      cases he : (m0.filter (fun q => !(shouldEvict c q.2))).isEmpty with
      | true =>
        rw [List.filter_cons]
        simp only [he, Bool.not_true, Bool.false_eq_true, if_false]
        rw [ih h2, mapGet_cons, hk]
        simp
      | false =>
        rw [List.filter_cons]
        simp only [he, Bool.not_false, if_true]
        rw [mapGet_cons, hk, mapGet_cons, hk]
        simp only [Bool.false_eq_true, if_false]
        exact ih h2

theorem listAgents_evictStale (c : Int) (st : Registry) (h : (mapKeys st).Nodup)
    (app : String) :
    listAgents app (evictStale c st)
      = (listAgents app st).filter (fun a => !(shouldEvict c a)) := by
  unfold listAgents
  rw [mapGet_evictStale c st h app]
  cases hg : mapGet st app with
  | none => simp
  | some m =>
    cases he : (m.filter (fun q => !(shouldEvict c q.2))).isEmpty with
    | true =>
      have hnil : m.filter (fun q => !(shouldEvict c q.2)) = [] := by
        simpa [List.isEmpty_iff] using he
      have hv := values_filter m (fun a => !(shouldEvict c a))
      rw [hnil] at hv
      simp only [List.map_nil] at hv
      simp [he]
      simpa using hv
    | false =>
      simp only [he, Bool.false_eq_true, if_false, Option.getD_some]
      exact values_filter m (fun a => !(shouldEvict c a))

/-! ## Lemmas about `recordAgentStatus` -/

theorem appAgents_read (st : Registry) (appName : String) :
    (mapGet (if mapHas st appName then st else mapSet st appName []) appName).getD []
      = (mapGet st appName).getD [] := by
  cases h : mapHas st appName with
  | true => rw [if_pos rfl]
  | false =>
    rw [if_neg (by simp), mapGet_mapSet_self]
    rw [mapHas_eq_isSome] at h
    cases hg : mapGet st appName with
    | none => rfl
    | some m => rw [hg] at h; simp at h

theorem recordAgentStatus_lookup (appName : String) (req : Request)
    (action : String) (version : Option String) (now : Int) (st : Registry) :
    lookupAgent (recordAgentStatus appName req action version now st) appName
        (resolvedAgentId req)
      = some (applyUpdate req action version now
          ((lookupAgent st appName (resolvedAgentId req)).getD
            (freshAgent (resolvedAgentId req) (jsOr req.xLocalVersion "")
              (getClientIP req) now action (jsOr req.userAgent "unknown")))) := by
  unfold recordAgentStatus lookupAgent
  rw [mapGet_mapSet_self, Option.getD_some, mapGet_mapSet_self]
  rw [appAgents_read st appName]
  cases hh : mapHas ((mapGet st appName).getD []) (resolvedAgentId req) with
  | true => rw [if_pos rfl]
  | false =>
    have hg : mapGet ((mapGet st appName).getD []) (resolvedAgentId req) = none := by
      rw [mapHas_eq_isSome] at hh
      exact Option.not_isSome_iff_eq_none.mp (by simp [hh])
    rw [if_neg (by simp), mapGet_mapSet_self, hg]
    rfl

theorem countKey_double_set {α : Type} (m : List (String × α)) (k : String)
    (v w : α) (h : mapHas m k = false) :
    countKey (mapSet (mapSet m k v) k w) k = 1 := by
  have h1 : mapHas (mapSet m k v) k = true := by
    rw [mapHas_eq_isSome, mapGet_mapSet_self]
    rfl
  rw [countKey_mapSet_of_has _ _ _ h1, countKey_mapSet_self,
    if_neg (by simp [h]), countKey_zero_of_not_has m k h]

theorem recordAgentStatus_countKey (appName : String) (req : Request)
    (action : String) (version : Option String) (now : Int) (st : Registry)
    (h : countKey ((mapGet st appName).getD []) (resolvedAgentId req) ≤ 1) :
    countKey ((mapGet (recordAgentStatus appName req action version now st)
        appName).getD []) (resolvedAgentId req) ≤ 1 := by
  unfold recordAgentStatus
  rw [mapGet_mapSet_self, Option.getD_some, appAgents_read st appName]
  cases hh : mapHas ((mapGet st appName).getD []) (resolvedAgentId req) with
  | true =>
    rw [if_pos rfl, countKey_mapSet_of_has _ _ _ hh]
    exact h
  | false =>
    rw [if_neg (by simp), countKey_double_set _ _ _ _ hh]

theorem step_requestCount (appName : String) (req : Request) (action : String)
    (version : Option String) (now : Int) (st : Registry) :
    (lookupAgent (recordAgentStatus appName req action version now st) appName
        (resolvedAgentId req)).map (fun a => a.requestCount)
      = some (((lookupAgent st appName (resolvedAgentId req)).map
          (fun a => a.requestCount)).getD 0 + 1) := by
  rw [recordAgentStatus_lookup]
  cases h : lookupAgent st appName (resolvedAgentId req) <;>
    simp [applyUpdate, freshAgent]

theorem step_lastSeen (appName : String) (req : Request) (action : String)
    (version : Option String) (now : Int) (st : Registry) :
    (lookupAgent (recordAgentStatus appName req action version now st) appName
        (resolvedAgentId req)).map (fun a => a.lastSeen)
      = some (TimeVal.at now) := by
  rw [recordAgentStatus_lookup]
  simp [applyUpdate]

theorem runCalls_lookup (appName agentId : String) (cs : List FleetCall) :
    ∀ st : Registry, (∀ c ∈ cs, resolvedAgentId c.req = agentId) →
    ∀ hne : cs ≠ [],
    ((lookupAgent (runCalls appName st cs) appName agentId).map
        (fun a => a.requestCount)
      = some (((lookupAgent st appName agentId).map
          (fun a => a.requestCount)).getD 0 + cs.length))
    ∧ ((lookupAgent (runCalls appName st cs) appName agentId).map
        (fun a => a.lastSeen)
      = some (TimeVal.at (cs.getLast hne).now)) := by
  induction cs with
  | nil => intro st _ hne; exact absurd rfl hne
  | cons c cs ih =>
    intro st hid hne
    have hcid : resolvedAgentId c.req = agentId := hid c (List.mem_cons_self c cs)
    cases cs with
    | nil =>
      constructor
      · have h1 := step_requestCount appName c.req c.action c.version c.now st
        rw [hcid] at h1
        simpa [runCalls] using h1
      · have h2 := step_lastSeen appName c.req c.action c.version c.now st
        rw [hcid] at h2
        simpa [runCalls] using h2
    | cons c2 cs2 =>
      have hid2 : ∀ x ∈ c2 :: cs2, resolvedAgentId x.req = agentId :=
        fun x hx => hid x (List.mem_cons_of_mem c hx)
      have ih2 := ih (recordAgentStatus appName c.req c.action c.version c.now st)
        hid2 (by simp)
      have hb := step_requestCount appName c.req c.action c.version c.now st
      rw [hcid] at hb
      constructor
      · have := ih2.1
        rw [hb] at this
        simp only [Option.getD_some] at this
        show (lookupAgent (runCalls appName
            (recordAgentStatus appName c.req c.action c.version c.now st)
            (c2 :: cs2)) appName agentId).map (fun a => a.requestCount) = _
        rw [this]
        simp only [List.length_cons]
        exact congrArg some (by omega)
      · have := ih2.2
        show (lookupAgent (runCalls appName
            (recordAgentStatus appName c.req c.action c.version c.now st)
            (c2 :: cs2)) appName agentId).map (fun a => a.lastSeen) = _
        rw [this]
        rw [List.getLast_cons_cons]

theorem runCalls_countKey (appName agentId : String) (cs : List FleetCall) :
    ∀ st : Registry, (∀ c ∈ cs, resolvedAgentId c.req = agentId) →
    countKey ((mapGet st appName).getD []) agentId ≤ 1 →
    countKey ((mapGet (runCalls appName st cs) appName).getD []) agentId ≤ 1 := by
  induction cs with
  | nil => intro st _ h; exact h
  | cons c cs ih =>
    intro st hid h
    have hcid : resolvedAgentId c.req = agentId := hid c (List.mem_cons_self c cs)
    have hstep := recordAgentStatus_countKey appName c.req c.action c.version
      c.now st (by rw [hcid]; exact h)
    rw [hcid] at hstep
    exact ih _ (fun x hx => hid x (List.mem_cons_of_mem c hx)) hstep

theorem chainLe_mono (cs : List FleetCall)
    (h : List.Chain' (fun a b => a.now ≤ b.now) cs) :
    ∀ (j i : Nat) (hi : i < cs.length) (hj : j < cs.length), i ≤ j →
      (cs.get ⟨i, hi⟩).now ≤ (cs.get ⟨j, hj⟩).now
  | 0, i, hi, hj, hij => by
    have e : i = 0 := Nat.le_zero.mp hij
    subst e
    exact le_refl _
  | (j+1), i, hi, hj, hij => by
    rcases Nat.lt_or_ge i (j+1) with hlt | hge
    · have hj' : j < cs.length := Nat.lt_of_succ_lt hj
      have hstep := List.chain'_iff_get.mp h j (by omega)
      exact le_trans (chainLe_mono cs h j i hi hj' (Nat.lt_succ_iff.mp hlt)) hstep
    · have e : i = j + 1 := Nat.le_antisymm hij hge
      subst e
      exact le_refl _

/-! ## Lemmas about the manifest builder -/

theorem buildFileList_firstMissing (fsys : Fsys) (bu app ver : String) :
    ∀ (pre : List FileSpec) (f : FileSpec) (post : List FileSpec),
    (∀ g ∈ pre, g.path ≠ "" ∧ fsys.existsSync g.path = true) →
    (f.path = "" ∨ fsys.existsSync f.path = false) →
    buildFileList fsys bu app ver (pre ++ f :: post)
      = (Except.error ("Binary file not found: "
            ++ (if f.path = "" then "unknown" else f.path)),
         pre.flatMap (fun g => [FsAccess.existsCheck g.path, FsAccess.readForHash g.path])
           ++ (if f.path = "" then [] else [FsAccess.existsCheck f.path])) := by
  intro pre
  induction pre with
  | nil =>
    intro f post _ hf
    by_cases hp : f.path = ""
    · simp [buildFileList, hp]
    · have hfe : fsys.existsSync f.path = false := by
        rcases hf with h | h
        · exact absurd h hp
        · exact h
      simp [buildFileList, hp, hfe]
  | cons g pre ih =>
    intro f post hpre hf
    have hg := hpre g (List.mem_cons_self g pre)
    have hrec := ih f post (fun x hx => hpre x (List.mem_cons_of_mem g hx)) hf
    simp only [List.cons_append, buildFileList, hg.2]
    rw [if_neg (by simp [hg.1]), if_neg (by simp)]
    simp only [List.append_eq]
    rw [hrec]
    simp [Except.map]

theorem buildFileList_ok_version (fsys : Fsys) (bu app ver : String) :
    ∀ (files : List FileSpec) (l : List ConfigEntry) (tr : List FsAccess),
    buildFileList fsys bu app ver files = (Except.ok l, tr) →
    ∀ e ∈ l, ∃ f ∈ files, e.version = jsOr f.version ver := by
  intro files
  induction files with
  | nil =>
    intro l tr h e he
    simp [buildFileList] at h
    rw [h.1] at he
    simp at he
  | cons f rest ih =>
    intro l tr h e he
    by_cases hp : f.path = ""
    · simp [buildFileList, hp] at h
    · cases hfe : fsys.existsSync f.path with
      | false => simp [buildFileList, hp, hfe] at h
      | true =>
        simp only [buildFileList] at h
        rw [if_neg (by simp [hp]), if_neg (by simp [hfe])] at h
        cases hb : (buildFileList fsys bu app ver rest).1 with
        | error msg => rw [hb] at h; simp [Except.map] at h
        | ok l2 =>
          rw [hb] at h
          simp only [Except.map] at h
          have hl2 := Except.ok.inj (congrArg Prod.fst h)
          rw [← hl2] at he
          rcases List.mem_cons.mp he with he1 | he1
          · exact ⟨f, List.mem_cons_self f rest, by rw [he1]⟩
          · obtain ⟨f2, hf2, hv2⟩ := ih l2 (buildFileList fsys bu app ver rest).2
              (by rw [← hb]) e he1
            exact ⟨f2, List.mem_cons_of_mem f hf2, hv2⟩

theorem jsOr_eq_empty {o : Option String} {ver : String}
    (h : jsOr o ver = "") : ver = "" := by
  cases o with
  | none => exact h
  | some s =>
    by_cases hs : s = ""
    · simpa [jsOr, hs] using h
    · simp [jsOr, hs] at h

theorem renderFileEntry_eq (version : String) (e : ConfigEntry)
    (h : e.version = "" → version = "") :
    renderFileEntry version e
      = entryBase e
        ++ (if e.version = version then ""
            else "    version: \"" ++ e.version ++ "\"\n")
        ++ (if e.restart then "    restart: true\n" else "") := by
  unfold renderFileEntry
  by_cases hv : e.version = version
  · simp [hv]
  · have hne : ¬ (e.version = "") := fun he => hv (by rw [he, h he])
    simp [hv, hne]

theorem generateConfig_ok (fsys : Fsys) (envBaseUrl envRestartCmd : String)
    (files : List FileSpec) (version appName : String) (opts : GenOptions)
    (out : GenOut) (tr : List FsAccess)
    (h : generateConfig fsys envBaseUrl envRestartCmd files version appName opts
      = (Except.ok out, tr)) :
    out.version = version ∧
    buildFileList fsys (jsOr opts.baseUrl envBaseUrl) appName version files
      = (Except.ok out.files, tr) ∧
    out.yaml = "version: \"" ++ version ++ "\"\nfiles:\n"
      ++ String.join (out.files.map (renderFileEntry version))
      ++ (if !(out.restartCmd == "") then
            "restart_cmd: " ++ singleQuote ++ out.restartCmd ++ singleQuote ++ "\n"
          else "") := by
  unfold generateConfig at h
  by_cases h1 : files.isEmpty
  · rw [if_pos h1] at h
    simp at h
  · rw [if_neg h1] at h
    by_cases h2 : appName == ""
    · rw [if_pos h2] at h
      simp at h
    · rw [if_neg h2] at h
      cases hb : buildFileList fsys (jsOr opts.baseUrl envBaseUrl) appName version
          files with
      | mk res tr2 =>
        rw [hb] at h
        cases res with
        | error e => simp at h
        | ok fileList =>
          have hout := congrArg Prod.fst h
          have htr := congrArg Prod.snd h
          simp only at hout htr
          have hout2 := Except.ok.inj hout
          subst htr
          rw [← hout2]
          exact ⟨rfl, rfl, rfl⟩

/-! ## Lemmas about the record query -/

theorem mem_insertDesc (x : GameRecord) (l : List GameRecord) (a : GameRecord) :
    a ∈ insertDesc x l ↔ a = x ∨ a ∈ l := by
  induction l with
  | nil => simp [insertDesc]
  | cons y ys ih =>
    unfold insertDesc
    by_cases h : y.timestamp ≤ x.timestamp
    · simp [h]
    · simp only [if_neg h, List.mem_cons, ih]
      tauto

theorem mem_sortByTimestampDesc (l : List GameRecord) (a : GameRecord) :
    a ∈ sortByTimestampDesc l ↔ a ∈ l := by
  induction l with
  | nil => simp [sortByTimestampDesc]
  | cons y ys ih =>
    unfold sortByTimestampDesc at ih ⊢
    simp only [List.foldr_cons, mem_insertDesc, List.mem_cons, ih]

theorem mem_queryGameRecords (startOfDay : String → Int) (date type : Option String)
    (dur : Option Int) (db : List GameRecord) (r : GameRecord) :
    r ∈ queryGameRecords startOfDay date type dur db
      ↔ r ∈ db ∧ matchesDate startOfDay date r = true
          ∧ matchesType type r = true ∧ matchesDuration dur r = true := by
  unfold queryGameRecords
  rw [mem_sortByTimestampDesc, List.mem_filter]
  simp [and_assoc]

/-! ## Lemmas for the id-equals-key invariant -/

theorem mem_mapSet {α : Type} {m : List (String × α)} {k : String} {v : α}
    {q : String × α} (h : q ∈ mapSet m k v) : q ∈ m ∨ q = (k, v) := by
  unfold mapSet at h
  by_cases hh : mapHas m k
  · rw [if_pos hh] at h
    obtain ⟨p, hp, he⟩ := List.mem_map.mp h
    by_cases hk : (p.1 == k) = true
    · right
      rw [← he, if_pos hk]
    · left
      rw [← he, if_neg hk]
      exact hp
  · rw [if_neg hh] at h
    rcases List.mem_append.mp h with h1 | h1
    · left; exact h1
    · right; simpa using h1

theorem idKey_mapSet_step (st : Registry) (appName agentId : String)
    (m1 : AgentMap) (a1 : AgentState)
    (hinv : ∀ p ∈ st, ∀ q ∈ p.2, (q.2).id = q.1)
    (hm1 : ∀ q ∈ m1, (q.2).id = q.1)
    (ha1 : a1.id = agentId) :
    ∀ p ∈ mapSet st appName (mapSet m1 agentId a1), ∀ q ∈ p.2, (q.2).id = q.1 := by
  intro p hp q hq
  rcases mem_mapSet hp with h | h
  · exact hinv p h q hq
  · rw [h] at hq
    rcases mem_mapSet hq with h2 | h2
    · exact hm1 q h2
    · rw [h2]
      exact ha1

theorem idKey_st1 (st : Registry) (appName : String)
    (hinv : ∀ p ∈ st, ∀ q ∈ p.2, (q.2).id = q.1) :
    ∀ p ∈ (if mapHas st appName then st else mapSet st appName []),
      ∀ q ∈ p.2, (q.2).id = q.1 := by
  by_cases h : mapHas st appName
  · rw [if_pos h]; exact hinv
  · rw [if_neg h]
    intro p hp q hq
    rcases mem_mapSet hp with h1 | h1
    · exact hinv p h1 q hq
    · rw [h1] at hq
      simp at hq

theorem idKey_getD (st : Registry) (appName : String)
    (hinv : ∀ p ∈ st, ∀ q ∈ p.2, (q.2).id = q.1) :
    ∀ q ∈ (mapGet st appName).getD [], (q.2).id = q.1 := by
  intro q hq
  cases hg : mapGet st appName with
  | none => rw [hg] at hq; simp at hq
  | some m =>
    rw [hg] at hq
    exact hinv (appName, m) (mem_of_mapGet_eq_some hg) q hq

theorem idKey_if_set {m : AgentMap} {agentId : String} {v : AgentState}
    (hm : ∀ q ∈ m, (q.2).id = q.1) (hv : v.id = agentId) :
    ∀ q ∈ (if mapHas m agentId then m else mapSet m agentId v),
      (q.2).id = q.1 := by
  by_cases h : mapHas m agentId
  · rw [if_pos h]; exact hm
  · rw [if_neg h]
    intro q hq
    rcases mem_mapSet hq with h1 | h1
    · exact hm q h1
    · rw [h1]
      exact hv

theorem idKey_agent {m : AgentMap} {agentId : String} {fr : AgentState}
    (hm : ∀ q ∈ m, (q.2).id = q.1) (hf : fr.id = agentId) :
    ((mapGet m agentId).getD fr).id = agentId := by
  cases hg : mapGet m agentId with
  | none => exact hf
  | some a => exact hm (agentId, a) (mem_of_mapGet_eq_some hg)

theorem idKey_evict (cutoff : Int) (st : Registry)
    (hinv : ∀ p ∈ st, ∀ q ∈ p.2, (q.2).id = q.1) :
    ∀ p ∈ evictStale cutoff st, ∀ q ∈ p.2, (q.2).id = q.1 := by
  intro p hp q hq
  unfold evictStale at hp
  have hp2 := List.mem_of_mem_filter hp
  obtain ⟨p0, hp0, he⟩ := List.mem_map.mp hp2
  rw [← he] at hq
  have hq2 := List.mem_of_mem_filter hq
  exact hinv p0 hp0 q hq2

/-! ## Claim theorems -/

/-- C1: `evictStale(now, window)` removes exactly the records whose `lastSeen`
is strictly older than `now - window` (a record last seen exactly at
`now - window`, or newer, survives — the test is a strict `<` on the parsed
time), then removes every application entry left with zero agents, and a
subsequent `listAgents` on any application returns the filtered — possibly
empty — sequence rather than an error. -/
theorem evictStale_spec (now window : Int) (st : Registry) (h : RegistryWF st)
    (app : String) :
    (listAgents app (evictStale (now - window) st)
      = (listAgents app st).filter (fun a => !(shouldEvict (now - window) a)))
    ∧ (∀ m, mapGet (evictStale (now - window) st) app = some m → m ≠ [])
    ∧ (∀ (a : AgentState) (t : Int), a.lastSeen = TimeVal.at t →
        shouldEvict (now - window) a = decide (t < now - window)) := by
  refine ⟨listAgents_evictStale _ st h.1 app, ?_, ?_⟩
  · intro m hm
    rw [mapGet_evictStale _ st h.1 app] at hm
    cases hg : mapGet st app with
    | none => rw [hg] at hm; exact absurd hm (by simp)
    | some m0 =>
      rw [hg] at hm
      dsimp only at hm
      by_cases he : (m0.filter (fun q => !(shouldEvict (now - window) q.2))).isEmpty
      · rw [if_pos he] at hm
        exact absurd hm (by simp)
      · rw [if_neg he] at hm
        rw [(Option.some.inj hm).symm]
        intro hnil
        exact he (by rw [hnil]; rfl)
  · intro a t ht
    simp [shouldEvict, ht, timeValMs]

/-- Witness for C1: evicting `regMix` at `now = 3650000` with a one-hour
window (cutoff 50000) leaves `listAgents "old"` equal to the filtered — here
empty — agent list. -/
theorem evictStale_spec_witness :
    listAgents "old" (evictStale ((3650000 : Int) - 3600000) regMix)
      = (listAgents "old" regMix).filter
          (fun a => !(shouldEvict ((3650000 : Int) - 3600000) a)) :=
  (evictStale_spec 3650000 3600000 regMix (by decide) "old").1

/-- C9: the eviction sweep is a total function of the registry state — the
Lean embedding of the loop body (`new Date(lastSeen).getTime() < cutoff`,
which yields `NaN < cutoff = false` on a malformed value) is defined on every
state, including states holding malformed records — and each record's fate
depends only on its own `lastSeen`: the sweep's output at any
(application, agent) pair is the pointwise filter of the input at that pair,
so an anomalous record never aborts processing of the remaining records, and
a malformed record itself survives the sweep. -/
theorem eviction_sweep_isolation (now window : Int) (st : Registry)
    (h : RegistryWF st) (app agentId : String) :
    (lookupAgent (evictStale (now - window) st) app agentId
      = (lookupAgent st app agentId).bind
          (fun a => if shouldEvict (now - window) a then none else some a))
    ∧ (∀ a, lookupAgent st app agentId = some a →
        a.lastSeen = TimeVal.malformed →
        lookupAgent (evictStale (now - window) st) app agentId = some a) := by
  have hmain : lookupAgent (evictStale (now - window) st) app agentId
      = (lookupAgent st app agentId).bind
          (fun a => if shouldEvict (now - window) a then none else some a) := by
    unfold lookupAgent
    rw [mapGet_evictStale _ st h.1 app]
    cases hg : mapGet st app with
    | none => rfl
    | some m =>
      have hnodup : (mapKeys m).Nodup := h.2 (app, m) (mem_of_mapGet_eq_some hg)
      dsimp only
      simp only [Option.getD_some]
      by_cases he : (m.filter (fun q => !(shouldEvict (now - window) q.2))).isEmpty
      · rw [if_pos he]
        simp only [Option.getD_none]
        cases hga : mapGet m agentId with
        | none => rfl
        | some a =>
          have hmem := mem_of_mapGet_eq_some hga
          have hfe : m.filter (fun q => !(shouldEvict (now - window) q.2)) = [] := by
            simpa [List.isEmpty_iff] using he
          have hq : ¬ ((!(shouldEvict (now - window) a)) = true) := by
            intro hq
            have hmem2 : (agentId, a)
                ∈ m.filter (fun q => !(shouldEvict (now - window) q.2)) :=
              List.mem_filter.mpr ⟨hmem, hq⟩
            rw [hfe] at hmem2
            simp at hmem2
          have hse : shouldEvict (now - window) a = true := by simpa using hq
          simp [hse, mapGet]
      · rw [if_neg he]
        simp only [Option.getD_some]
        rw [mapGet_filter_of_nodup m (fun a => !(shouldEvict (now - window) a))
          agentId hnodup]
        cases hga : mapGet m agentId with
        | none => rfl
        | some a => cases hsa : shouldEvict (now - window) a <;> simp [hsa]
  refine ⟨hmain, ?_⟩
  intro a ha hmal
  rw [hmain, ha]
  simp [shouldEvict, hmal, timeValMs]

/-- Witness for C9: the record with a malformed `lastSeen` survives the sweep
of `regMix` unchanged. -/
theorem eviction_sweep_isolation_witness :
    lookupAgent (evictStale ((3650000 : Int) - 3600000) regMix) "app" "M"
      = some agentBad :=
  (eviction_sweep_isolation 3650000 3600000 regMix (by decide) "app" "M").2
    agentBad (by decide) rfl

/-- C2: a `recordActivity` call for an (application, agent identity) pair
with no existing record creates exactly one record for the pair — it is
initialised with `currentVersion = null` (so after the call `currentVersion`
is null unless a version was served in this very call) and its
`requestCount` equals 1 after the call. -/
theorem recordActivity_first_contact (appName : String) (req : Request)
    (action : String) (version : Option String) (now : Int) (st : Registry)
    (h : lookupAgent st appName (resolvedAgentId req) = none) :
    ((lookupAgent (recordAgentStatus appName req action version now st) appName
        (resolvedAgentId req)).map (fun a => a.requestCount) = some 1)
    ∧ ((lookupAgent (recordAgentStatus appName req action version now st) appName
        (resolvedAgentId req)).map (fun a => a.currentVersion)
      = some (if truthy version then version else none))
    ∧ countKey ((mapGet (recordAgentStatus appName req action version now st)
        appName).getD []) (resolvedAgentId req) = 1 := by
  refine ⟨?_, ?_, ?_⟩
  · have hs := step_requestCount appName req action version now st
    rw [h] at hs
    simpa using hs
  · rw [recordAgentStatus_lookup, h]
    simp [applyUpdate, freshAgent]
  · unfold recordAgentStatus
    rw [mapGet_mapSet_self, Option.getD_some, appAgents_read st appName]
    have hh : mapHas ((mapGet st appName).getD []) (resolvedAgentId req) = false := by
      rw [mapHas_eq_isSome]
      unfold lookupAgent at h
      rw [h]
      rfl
    rw [if_neg (by simp [hh]), countKey_double_set _ _ _ _ hh]

/-- Witness for C2: a first contact without `x-agent-id` on the empty
registry yields a record with `requestCount = 1`. -/
theorem recordActivity_first_contact_witness :
    (lookupAgent (recordAgentStatus "app" reqFallback "config_check" none 5 [])
        "app" (resolvedAgentId reqFallback)).map (fun a => a.requestCount)
      = some 1 :=
  (recordActivity_first_contact "app" reqFallback "config_check" none 5 [] rfl).1

/-- C8: on a call that finds an existing record, the stored `networkAddress`
(`ip`) is overwritten with the newly resolved address exactly when the
request carried a (truthy) explicit `x-agent-id`; when the identity fell
back to the address, the previously stored `ip` is left unchanged. -/
theorem address_update_policy (appName : String) (req : Request)
    (action : String) (version : Option String) (now : Int) (st : Registry)
    (a : AgentState)
    (h : lookupAgent st appName (resolvedAgentId req) = some a) :
    ((lookupAgent (recordAgentStatus appName req action version now st) appName
        (resolvedAgentId req)).map (fun x => x.ip)
      = some (if truthy req.xAgentId then getClientIP req else a.ip))
    ∧ (truthy req.xAgentId = false →
        (lookupAgent (recordAgentStatus appName req action version now st)
          appName (resolvedAgentId req)).map (fun x => x.ip) = some a.ip) := by
  constructor
  · rw [recordAgentStatus_lookup, h]
    simp [applyUpdate]
  · intro hf
    rw [recordAgentStatus_lookup, h]
    simp [applyUpdate, hf]

/-- Witness for C8: a call with an explicit `x-agent-id` on `regSeed`
overwrites the stored address with the freshly resolved one. -/
theorem address_update_policy_witness :
    (lookupAgent (recordAgentStatus "app" reqExplicit "config_check" none 5
        regSeed) "app" (resolvedAgentId reqExplicit)).map (fun x => x.ip)
      = some (if truthy reqExplicit.xAgentId then getClientIP reqExplicit
          else agentSeed.ip) :=
  (address_update_policy "app" reqExplicit "config_check" none 5 regSeed
    agentSeed (by decide)).1

theorem getLast_take {α : Type} :
    ∀ (l : List α) (i : Nat) (hi : i < l.length) (hne : l.take (i+1) ≠ []),
    (l.take (i+1)).getLast hne = l.get ⟨i, hi⟩
  | [], i, hi, _ => by simp at hi
  | a :: l, 0, _, _ => by simp
  | a :: l, (i+1), hi, hne => by
    have hi2 : i < l.length := Nat.lt_of_succ_lt_succ hi
    have hne2 : l.take (i+1) ≠ [] := by
      have hlen : (l.take (i+1)).length = i+1 := by
        rw [List.length_take]
        omega
      intro hx
      rw [hx] at hlen
      simp at hlen
    have hstep : ((a :: l).take (i+1+1)).getLast hne
        = (l.take (i+1)).getLast hne2 := List.getLast_cons hne2
    rw [hstep]
    exact getLast_take l i hi2 hne2

/-- C3: over any sequence of `recordActivity` calls that all resolve to the
same (application, agent identity) pair, `requestCount` strictly increases
with each call (after the `k`-th call it equals the initial count plus `k`),
`lastSeen` equals the clock reading of the latest call and hence never
decreases when the clock supplying `now` is non-decreasing across calls, and
at most one record exists for the pair after every prefix of calls. -/
theorem recordActivity_monotonicity (appName agentId : String) (st : Registry)
    (cs : List FleetCall)
    (hid : ∀ c ∈ cs, resolvedAgentId c.req = agentId)
    (hclock : List.Chain' (fun a b => a.now ≤ b.now) cs)
    (hone : countKey ((mapGet st appName).getD []) agentId ≤ 1) :
    (∀ i (hi : i < cs.length),
      ((lookupAgent (runCalls appName st (cs.take (i+1))) appName agentId).map
          (fun a => a.requestCount)
        = some (((lookupAgent st appName agentId).map
            (fun a => a.requestCount)).getD 0 + (i+1)))
      ∧ ((lookupAgent (runCalls appName st (cs.take (i+1))) appName agentId).map
          (fun a => a.lastSeen) = some (TimeVal.at ((cs.get ⟨i, hi⟩).now))))
    ∧ (∀ i j (hi : i < cs.length) (hj : j < cs.length), i ≤ j → ∀ s t : Int,
        ((lookupAgent (runCalls appName st (cs.take (i+1))) appName agentId).map
          (fun a => a.lastSeen) = some (TimeVal.at s)) →
        ((lookupAgent (runCalls appName st (cs.take (j+1))) appName agentId).map
          (fun a => a.lastSeen) = some (TimeVal.at t)) →
        s ≤ t)
    ∧ (∀ i, i ≤ cs.length →
        countKey ((mapGet (runCalls appName st (cs.take i)) appName).getD [])
          agentId ≤ 1) := by
  have hpart1 : ∀ i (hi : i < cs.length),
      ((lookupAgent (runCalls appName st (cs.take (i+1))) appName agentId).map
          (fun a => a.requestCount)
        = some (((lookupAgent st appName agentId).map
            (fun a => a.requestCount)).getD 0 + (i+1)))
      ∧ ((lookupAgent (runCalls appName st (cs.take (i+1))) appName agentId).map
          (fun a => a.lastSeen) = some (TimeVal.at ((cs.get ⟨i, hi⟩).now))) := by
    intro i hi
    have hlen : (cs.take (i+1)).length = i + 1 := by
      rw [List.length_take]
      omega
    have htne : cs.take (i+1) ≠ [] := by
      intro hx
      rw [hx] at hlen
      simp at hlen
    have hidt : ∀ c ∈ cs.take (i+1), resolvedAgentId c.req = agentId :=
      fun c hc => hid c (List.take_subset _ _ hc)
    have haux := runCalls_lookup appName agentId (cs.take (i+1)) st hidt htne
    constructor
    · rw [haux.1, hlen]
    · rw [haux.2, getLast_take cs i hi htne]
  refine ⟨hpart1, ?_, ?_⟩
  · intro i j hi hj hij s t hs ht
    have hs2 := Option.some.inj (hs.symm.trans (hpart1 i hi).2)
    have ht2 := Option.some.inj (ht.symm.trans (hpart1 j hj).2)
    have es : s = (cs.get ⟨i, hi⟩).now := TimeVal.at.inj hs2
    have et : t = (cs.get ⟨j, hj⟩).now := TimeVal.at.inj ht2
    rw [es, et]
    exact chainLe_mono cs hclock j i hi hj hij
  · intro i _
    exact runCalls_countKey appName agentId (cs.take i) st
      (fun c hc => hid c (List.take_subset _ _ hc)) hone

/-- Witness for C3: two calls with the same explicit identity on the empty
registry leave `requestCount = 2` after the second call. -/
theorem recordActivity_monotonicity_witness :
    (lookupAgent (runCalls "app" [] ([callA, callB].take 2)) "app" "A").map
        (fun a => a.requestCount) = some 2 := by
  have h := (recordActivity_monotonicity "app" "A" [] [callA, callB]
    (by decide) (List.Chain.cons (by decide) List.Chain.nil) (by decide)).1 1
    (by decide)
  simpa using h.1

/-- C10: in every registry state reachable from the empty registry by
`recordAgentStatus` calls and eviction sweeps, every stored record's `id`
field equals the agent-identity key under which it is stored, so every entry
of an application's agent map carries an `id` equal to its registry key. -/
theorem agent_id_matches_key (st : Registry) (h : ReachableFleet st) :
    (∀ p ∈ st, ∀ q ∈ p.2, (q.2).id = q.1)
    ∧ (∀ appName : String, ∀ q ∈ (mapGet st appName).getD ([] : AgentMap),
        (q.2).id = q.1) := by
  have hmain : ∀ p ∈ st, ∀ q ∈ p.2, (q.2).id = q.1 := by
    induction h with
    | empty => intro p hp; simp at hp
    | record appName req action version now st hst ih =>
      unfold recordAgentStatus
      refine idKey_mapSet_step _ appName (resolvedAgentId req) _ _
        (idKey_st1 st appName ih)
        (idKey_if_set (idKey_getD _ appName (idKey_st1 st appName ih)) rfl)
        (idKey_agent (idKey_if_set
          (idKey_getD _ appName (idKey_st1 st appName ih)) rfl) rfl)
    | evict cutoff st hst ih => exact idKey_evict cutoff st ih
  exact ⟨hmain, fun appName => idKey_getD st appName hmain⟩

/-- Witness for C10: the record created by a fallback-identity call on the
empty registry carries its registry key as its `id`. -/
theorem agent_id_matches_key_witness : agentW.id = "198.51.100.2" :=
  (agent_id_matches_key
      (recordAgentStatus "app" reqFallback "config_check" none 5 [])
      (ReachableFleet.record "app" reqFallback "config_check" none 5 []
        ReachableFleet.empty)).2
    "app" ("198.51.100.2", agentW) (by decide)

/-- C4 counterexample: building a manifest over `[fileGood, fileMissing]`
fails with `FileNotFound` for `missing.bin` — so the per-file existence
checks did not pass — yet `good.bin` has already been read and hashed.  This
refutes the claim's final clause that no digest is computed and no file is
read before the validation checks pass. -/
theorem buildManifest_validation_counterexample :
    ((generateConfig fsysW "http://h" "" [fileGood, fileMissing] "1.0" "app"
        optsNone).1 = Except.error "Binary file not found: missing.bin")
    ∧ FsAccess.readForHash "good.bin"
        ∈ (generateConfig fsysW "http://h" "" [fileGood, fileMissing] "1.0"
            "app" optsNone).2 := by
  constructor
  · rfl
  · decide

/-- C4 (amended): `generateConfig` validates in the stated order — an empty
file list fails with `InvalidManifestInput` (message `Files array cannot be
empty`) before the app-name check and before any filesystem access, then an
empty app name fails with `InvalidManifestInput` (message `App name is
required`) before any filesystem access, then the first file whose source
path is missing fails with `FileNotFound` naming the missing path; each file
is read and hashed only after its own existence check passes, so the files
preceding the first missing one are existence-checked and hashed, in order,
before the failure is raised, and nothing at or after the first missing file
is read. -/
theorem buildManifest_validation_amended (fsys : Fsys)
    (envBaseUrl envRestartCmd : String) (files : List FileSpec)
    (version appName : String) (opts : GenOptions) :
    (files = [] →
      generateConfig fsys envBaseUrl envRestartCmd files version appName opts
        = (Except.error "Files array cannot be empty", []))
    ∧ (files ≠ [] → appName = "" →
      generateConfig fsys envBaseUrl envRestartCmd files version appName opts
        = (Except.error "App name is required", []))
    ∧ (∀ (pre : List FileSpec) (f : FileSpec) (post : List FileSpec),
        files = pre ++ f :: post → appName ≠ "" →
        (∀ g ∈ pre, g.path ≠ "" ∧ fsys.existsSync g.path = true) →
        (f.path = "" ∨ fsys.existsSync f.path = false) →
        generateConfig fsys envBaseUrl envRestartCmd files version appName opts
          = (Except.error ("Binary file not found: "
              ++ (if f.path = "" then "unknown" else f.path)),
            pre.flatMap (fun g =>
              [FsAccess.existsCheck g.path, FsAccess.readForHash g.path])
              ++ (if f.path = "" then []
                  else [FsAccess.existsCheck f.path]))) := by
  refine ⟨?_, ?_, ?_⟩
  · intro he
    subst he
    rfl
  · intro hne hap
    subst hap
    unfold generateConfig
    rw [if_neg (by simp [List.isEmpty_iff, hne]),
      if_pos (show (("" : String) == "") = true from rfl)]
  · intro pre f post hf hap hpre hmiss
    subst hf
    unfold generateConfig
    rw [if_neg (by simp [List.isEmpty_iff]), if_neg (by simp [hap]),
      buildFileList_firstMissing fsys (jsOr opts.baseUrl envBaseUrl) appName
        version pre f post hpre hmiss]

/-- Witness for C4 (amended): on `[fileGood, fileMissing]` the builder fails
naming `missing.bin`, after existence-checking and hashing `good.bin` and
existence-checking `missing.bin` only. -/
theorem buildManifest_validation_amended_witness :
    generateConfig fsysW "http://h" "" [fileGood, fileMissing] "1.0" "app"
        optsNone
      = (Except.error "Binary file not found: missing.bin",
         [FsAccess.existsCheck "good.bin", FsAccess.readForHash "good.bin",
          FsAccess.existsCheck "missing.bin"]) := by
  have h := (buildManifest_validation_amended fsysW "http://h" "" 
      [fileGood, fileMissing] "1.0" "app" optsNone).2.2
    [fileGood] fileMissing [] rfl (by decide) (by decide) (Or.inr (by decide))
  exact h

/-- C5: in every successfully built manifest, the rendered text is the header
plus the per-file renderings, and a file entry's rendering contains the
file-level version line exactly when its effective version (per-file
override, else the manifest version — the `version` field the builder stored)
differs from the manifest-level version. -/
theorem manifest_version_line_iff (fsys : Fsys)
    (envBaseUrl envRestartCmd : String) (files : List FileSpec)
    (version appName : String) (opts : GenOptions) (out : GenOut)
    (tr : List FsAccess)
    (h : generateConfig fsys envBaseUrl envRestartCmd files version appName
      opts = (Except.ok out, tr)) :
    (out.yaml = "version: \"" ++ version ++ "\"\nfiles:\n"
        ++ String.join (out.files.map (renderFileEntry version))
        ++ (if !(out.restartCmd == "") then
              "restart_cmd: " ++ singleQuote ++ out.restartCmd ++ singleQuote
                ++ "\n"
            else ""))
    ∧ ∀ e ∈ out.files,
        renderFileEntry version e
          = entryBase e
            ++ (if e.version = version then ""
                else "    version: \"" ++ e.version ++ "\"\n")
            ++ (if e.restart then "    restart: true\n" else "") := by
  obtain ⟨hv, hb, hy⟩ := generateConfig_ok fsys envBaseUrl envRestartCmd files
    version appName opts out tr h
  refine ⟨hy, ?_⟩
  intro e he
  obtain ⟨f, hf, hver⟩ := buildFileList_ok_version fsys
    (jsOr opts.baseUrl envBaseUrl) appName version files out.files tr hb e he
  refine renderFileEntry_eq version e ?_
  intro hee
  exact jsOr_eq_empty (hver.symm.trans hee)

/-- Witness for C5: the entry built for `fileGood` at manifest version
`"1.0"` has effective version `"1.0"` and renders without a version line. -/
theorem manifest_version_line_iff_witness :
    renderFileEntry "1.0" entryGood
      = entryBase entryGood
        ++ (if entryGood.version = "1.0" then ""
            else "    version: \"" ++ entryGood.version ++ "\"\n")
        ++ (if entryGood.restart then "    restart: true\n" else "") :=
  (manifest_version_line_iff fsysW "http://h" "" [fileGood] "1.0" "app"
      optsNone outGood
      [FsAccess.existsCheck "good.bin", FsAccess.readForHash "good.bin"]
      rfl).2
    entryGood (by decide)

/-- C6: with a (non-empty) date filter `D`, a stored record is returned
exactly when its epoch-second timestamp lies in the half-open interval
from the local midnight of `D` (supplied by the abstract `startOfDay`
reading) to that midnight plus 86400 s: a record at exactly the local
midnight of `D` is included, one at exactly `startOfDay D + 86400` — the
following local midnight — is excluded; an absent date filter imposes no
timestamp constraint. -/
theorem date_filter_interval (startOfDay : String → Int) (D : String)
    (hD : D ≠ "") (tf : Option String) (df : Option Int)
    (db : List GameRecord) (r : GameRecord) :
    ((r ∈ queryGameRecords startOfDay (some D) none none db)
      ↔ (r ∈ db ∧ startOfDay D ≤ r.timestamp
          ∧ r.timestamp < startOfDay D + 86400))
    ∧ (r.timestamp = startOfDay D →
        ((r ∈ queryGameRecords startOfDay (some D) none none db) ↔ r ∈ db))
    ∧ (r.timestamp = startOfDay D + 86400 →
        r ∉ queryGameRecords startOfDay (some D) none none db)
    ∧ ((r ∈ queryGameRecords startOfDay none tf df db)
      ↔ (r ∈ db ∧ matchesType tf r = true ∧ matchesDuration df r = true)) := by
  have hiff : (r ∈ queryGameRecords startOfDay (some D) none none db)
      ↔ (r ∈ db ∧ startOfDay D ≤ r.timestamp
          ∧ r.timestamp < startOfDay D + 86400) := by
    rw [mem_queryGameRecords]
    simp [matchesDate, matchesType, matchesDuration, hD]
  refine ⟨hiff, ?_, ?_, ?_⟩
  · intro ht
    rw [hiff]
    constructor
    · exact fun hh => hh.1
    · intro hdb
      exact ⟨hdb, by omega, by omega⟩
  · intro ht hmem
    obtain ⟨_, _, hlt⟩ := hiff.mp hmem
    omega
  · rw [mem_queryGameRecords]
    simp [matchesDate]

/-- Witness for C6: the record timestamped exactly at the witness local
midnight is returned; membership follows from the boundary conjunct. -/
theorem date_filter_interval_witness :
    recMid ∈ queryGameRecords sodW (some "2024-01-03") none none dbW :=
  ((date_filter_interval sodW "2024-01-03" (by decide) none none dbW
      recMid).2.1 (by decide)).mpr (by decide)

/-- C7 counterexample: on a request whose client-identity header is present
but empty (peer address `10.0.0.7`), the code falls back to the address,
resolving the identity to `10.0.0.7`, while the claim's literal reading — the
explicit identity header *when present* — yields `""`.  The same
presence-versus-truthiness gap affects the forwarded-address header
(`if (forwarded)` in `getClientIP` treats a present-but-empty header as
absent).  So the claim, read with presence rather than non-emptiness, is
false. -/
theorem identity_resolution_counterexample :
    ¬ (getClientIP reqEmptyAgent = specResolvedAddress reqEmptyAgent
        ∧ resolvedAgentId reqEmptyAgent = specResolvedIdentity reqEmptyAgent) := by
  intro h
  exact absurd h.2 (by decide)

/-- C7 (amended): the resolved client address is the first comma-separated
entry, trimmed, of the forwarded-address header when that header is present
with a non-empty value; else the real-address header when present with a
non-empty value; else the transport-level peer address
(`connection` else `socket`); else the literal `"unknown"` — and the agent's
stable identifier is the explicit client identity header when present with a
non-empty value, else exactly the resolved address. -/
theorem identity_resolution_amended (req : Request) :
    (∀ s, req.xForwardedFor = some s → s ≠ "" →
      getClientIP req = ((s.splitOn ",").headD "").trim)
    ∧ ((req.xForwardedFor = none ∨ req.xForwardedFor = some "") →
        ∀ s, req.xRealIP = some s → s ≠ "" → getClientIP req = s)
    ∧ ((req.xForwardedFor = none ∨ req.xForwardedFor = some "") →
       (req.xRealIP = none ∨ req.xRealIP = some "") →
        getClientIP req = jsOr req.connectionRemoteAddress
          (jsOr req.socketRemoteAddress "unknown"))
    ∧ ((req.xForwardedFor = none ∨ req.xForwardedFor = some "") →
       (req.xRealIP = none ∨ req.xRealIP = some "") →
       (req.connectionRemoteAddress = none
          ∨ req.connectionRemoteAddress = some "") →
       (req.socketRemoteAddress = none ∨ req.socketRemoteAddress = some "") →
        getClientIP req = "unknown")
    ∧ (∀ s, req.xAgentId = some s → s ≠ "" → resolvedAgentId req = s)
    ∧ ((req.xAgentId = none ∨ req.xAgentId = some "") →
        resolvedAgentId req = getClientIP req) := by
  refine ⟨?_, ?_, ?_, ?_, ?_, ?_⟩
  · intro s hs hne
    simp [getClientIP, truthy, hs, hne]
  · intro hf s hs hne
    have hft : truthy req.xForwardedFor = false := by
      rcases hf with h | h <;> simp [truthy, h]
    have hrt : truthy req.xRealIP = true := by simp [truthy, hs, hne]
    unfold getClientIP
    rw [hft, hrt]
    simp [hs]
  · intro hf hr
    have hft : truthy req.xForwardedFor = false := by
      rcases hf with h | h <;> simp [truthy, h]
    have hrt : truthy req.xRealIP = false := by
      rcases hr with h | h <;> simp [truthy, h]
    unfold getClientIP
    rw [hft, hrt]
    simp
  · intro hf hr hc hsk
    have hft : truthy req.xForwardedFor = false := by
      rcases hf with h | h <;> simp [truthy, h]
    have hrt : truthy req.xRealIP = false := by
      rcases hr with h | h <;> simp [truthy, h]
    unfold getClientIP
    rw [hft, hrt]
    rcases hc with hc | hc <;> rcases hsk with hsk | hsk <;>
      simp [jsOr, hc, hsk]
  · intro s hs hne
    simp [resolvedAgentId, jsOr, hs, hne]
  · intro ha
    rcases ha with h | h <;> simp [resolvedAgentId, jsOr, h]

/-- Witness for C7 (amended): a non-empty explicit identity header wins. -/
theorem identity_resolution_amended_witness :
    resolvedAgentId reqExplicit = "A" :=
  (identity_resolution_amended reqExplicit).2.2.2.2.1 "A" rfl (by decide)
